import Mathlib

/-!
Shallow embedding of `src/main.py` (ResumeSelector): a FastAPI endpoint that
validates uploaded PDF resumes, fans out one LLM call per accepted file,
extracts a python-dict substring from each model response, parses it with
`ast.literal_eval`, injects the filename, and exports the record list as a
table with a canonical column order.

Strings are modelled as `List Char`.  The external LLM call is modelled as an
`Except` outcome attached to each file (error = the exception the call threw,
ok = the response text).  Machine-level concerns (base64 transport encoding,
the spreadsheet serialization) do not influence the record data and are noted
where they occur.
-/

namespace ResumeSelector

/-- The brace characters, named so concrete literals stay readable. -/
def lbrace : Char := '{'

def rbrace : Char := '}'

def sq : Char := '\''

def dq : Char := '"'

/-- Python's `\s` character class (ASCII range, which covers all inputs the
repository handles): space, tab, newline, carriage return, form feed,
vertical tab. -/
def pyIsSpace (c : Char) : Bool :=
  c = ' ' || c = '\t' || c = '\n' || c = '\x0d' || c = '\x0b' || c = '\x0c'

/-- Python `str.strip()`: drop leading and trailing whitespace. -/
def pyStrip (s : List Char) : List Char :=
  ((s.dropWhile pyIsSpace).reverse.dropWhile pyIsSpace).reverse

/-- Python substring containment: `pat in s`. -/
def containsSub (pat : List Char) : List Char → Bool
  | [] => pat.isPrefixOf []
  | c :: rest => pat.isPrefixOf (c :: rest) || containsSub pat rest

/-- The literal opening of the fenced-block regex `r'```python\s*(\{.*?\})\s*```'`. -/
def fenceOpen : List Char := String.toList "```python"

def fenceClose : List Char := String.toList "```"

/-- Lazy body scan for the fenced regex: `.*?` expands one character at a time,
so the match ends at the first `}` after which `\s*` then three backticks
match.  Returns the body from just after `{` up to and including that `}`. -/
def scanFencedBody : List Char → Option (List Char)
  | [] => none
  | c :: cs =>
    if c = rbrace && fenceClose.isPrefixOf (cs.dropWhile pyIsSpace) then
      some [rbrace]
    else
      match scanFencedBody cs with
      | some body => some (c :: body)
      | none => none

/-- Attempt the fenced regex at one start position: the literal ` ```python `,
then `\s*` (greedy, deterministic because whitespace and `{` are disjoint),
then `{`, then the lazy body.  Returns capture group 1 (`\{.*?\}`). -/
def fencedAt (s : List Char) : Option (List Char) :=
  if fenceOpen.isPrefixOf s then
    match (s.drop fenceOpen.length).dropWhile pyIsSpace with
    | [] => none
    | c :: cs => if c = lbrace then (scanFencedBody cs).map (fun b => lbrace :: b) else none
  else none

/-- `re.search` for the fenced pattern: try each start position left to right. -/
def searchFenced : List Char → Option (List Char)
  | [] => none
  | c :: rest =>
    match fencedAt (c :: rest) with
    | some g => some g
    | none => searchFenced rest

/-- Everything up to and including the first `}` of the list. -/
def upToRBrace : List Char → Option (List Char)
  | [] => none
  | c :: cs => if c = rbrace then some [rbrace] else (upToRBrace cs).map (c :: ·)

/-- `re.search(r'(\{.*?\})', s, re.DOTALL)`: the leftmost match starts at the
first `{` and, lazily, ends at the first `}` after it.  (If the first `{` has
no `}` after it then no later start position can match either, since any `}`
after a later `{` would also lie after the first one.) -/
def firstBraceSpan : List Char → Option (List Char)
  | [] => none
  | c :: cs => if c = lbrace then (upToRBrace cs).map (lbrace :: ·) else firstBraceSpan cs

/-- The key markers of the heuristic guard in `extract_python_dict_string`. -/
def nameMarker : List Char := String.toList "'NAME':"

def summaryMarker : List Char := String.toList "'SUMMARY':"

/-- `extract_python_dict_string` (src/main.py lines 42-64): first try the
python-fenced regex; otherwise take the first `{...}` span and accept it only
if it contains both `'NAME':` and `'SUMMARY':`; otherwise `None`. -/
def extract_python_dict_string (response_text : List Char) : Option (List Char) :=
  match searchFenced response_text with
  | some g => some (pyStrip g)
  | none =>
    match firstBraceSpan response_text with
    | some d =>
      let potential_dict_str := pyStrip d
      if containsSub nameMarker potential_dict_str
          && containsSub summaryMarker potential_dict_str then
        some potential_dict_str
      else none
    | none => none

/-! ## Python literal values and `ast.literal_eval`

`ast.literal_eval` is the Python standard library's literal evaluator.  We
model it on the literal subset the pipeline actually exchanges: strings
(single or double quoted, common escapes), integers (with unary sign),
`True`/`False`/`None`, lists, and dicts whose keys are hashable scalars.
Inputs outside this subset (floats, tuples, sets, unhashable keys) make the
model parser fail; in the source these inputs likewise end in the same
per-item parse-failure ErrorRecord, because a non-dict result raises
`ValueError` into the same handler. -/

/-- A hashable scalar usable as a Python dict key. -/
inductive PyKey where
  | kstr (s : List Char)
  | kint (n : Int)
  | kbool (b : Bool)
  | knone
deriving DecidableEq, Repr

/-- A Python literal value. -/
inductive PyVal where
  | vstr (s : List Char)
  | vint (n : Int)
  | vbool (b : Bool)
  | vnone
  | vlist (xs : List PyVal)
  | vdict (kvs : List (PyKey × PyVal))
deriving Repr

/-- A record flowing through the pipeline: a Python dict in insertion order. -/
abbrev Record := List (PyKey × PyVal)

/-- Python dict assignment `d[k] = v`: overwrite in place when the key is
present (keeping its position), else append at the end. -/
def dictSet (d : Record) (k : PyKey) (v : PyVal) : Record :=
  if d.any (fun kv => kv.1 = k) then
    d.map (fun kv => if kv.1 = k then (k, v) else kv)
  else d ++ [(k, v)]

/-- Python dict lookup `d.get(k)`. -/
def dictGet (d : Record) (k : PyKey) : Option PyVal :=
  (d.find? (fun kv => kv.1 = k)).map (fun kv => kv.2)

/-- The body of a quoted string literal: read until the closing quote,
decoding the common escapes; a raw newline or a missing closing quote is a
syntax error.  Returns (decoded content, rest after closing quote). -/
def parseStrChars (q : Char) : List Char → Option (List Char × List Char)
  | [] => none
  | c :: rest =>
    if c = q then some ([], rest)
    else if c = '\n' then none
    else if c = '\\' then
      match rest with
      | [] => none
      | e :: rest2 =>
        let decoded : List Char :=
          if e = 'n' then ['\n'] else if e = 't' then ['\t']
          else if e = 'r' then ['\x0d'] else if e = '\\' then ['\\']
          else if e = sq then [sq] else if e = dq then [dq]
          else ['\\', e]
        (parseStrChars q rest2).map (fun p => (decoded ++ p.1, p.2))
    else (parseStrChars q rest).map (fun p => (c :: p.1, p.2))

/-- Decimal digits folded into a number. -/
def natOfDigits (ds : List Char) : Nat :=
  ds.foldl (fun a c => a * 10 + (c.toNat - 48)) 0

/-- At least one decimal digit. -/
def parseDigits (s : List Char) : Option (Nat × List Char) :=
  let ds := s.takeWhile Char.isDigit
  if ds.isEmpty then none else some (natOfDigits ds, s.drop ds.length)

/-- Conversion of a parsed value to a dict key; composite values are not
hashable and cannot be dict keys. -/
def toKey : PyVal → Option PyKey
  | .vstr s => some (.kstr s)
  | .vint n => some (.kint n)
  | .vbool b => some (.kbool b)
  | .vnone => some .knone
  | _ => none

/-- A dict display evaluates its pairs left to right, inserting each in turn,
so a duplicated key keeps its first position with its last value. -/
def dictBuild (pairs : List (PyKey × PyVal)) : Record :=
  pairs.foldl (fun d kv => dictSet d kv.1 kv.2) []

mutual

/-- One literal value, after optional leading whitespace. -/
def parseVal : Nat → List Char → Option (PyVal × List Char)
  | 0, _ => none
  | Nat.succ fuel, s =>
    match s.dropWhile pyIsSpace with
    | [] => none
    | c :: rest =>
      if c = sq || c = dq then
        (parseStrChars c rest).map (fun p => (.vstr p.1, p.2))
      else if c = '[' then
        (parseListItems fuel rest).map (fun p => (.vlist p.1, p.2))
      else if c = lbrace then
        (parseDictItems fuel rest).map (fun p => (.vdict (dictBuild p.1), p.2))
      else if c = '-' then
        (parseDigits (rest.dropWhile pyIsSpace)).map (fun p => (.vint (-(p.1 : Int)), p.2))
      else if c = '+' then
        (parseDigits (rest.dropWhile pyIsSpace)).map (fun p => (.vint (p.1 : Int), p.2))
      else if c.isDigit then
        (parseDigits (c :: rest)).map (fun p => (.vint (p.1 : Int), p.2))
      else if (String.toList "True").isPrefixOf (c :: rest) then
        some (.vbool true, (c :: rest).drop 4)
      else if (String.toList "False").isPrefixOf (c :: rest) then
        some (.vbool false, (c :: rest).drop 5)
      else if (String.toList "None").isPrefixOf (c :: rest) then
        some (.vnone, (c :: rest).drop 4)
      else none

/-- List elements after `[` or after a comma; permits the trailing comma
Python allows. -/
def parseListItems : Nat → List Char → Option (List PyVal × List Char)
  | 0, _ => none
  | Nat.succ fuel, s =>
    match s.dropWhile pyIsSpace with
    | [] => none
    | c :: rest =>
      if c = ']' then some ([], rest)
      else
        match parseVal fuel (c :: rest) with
        | none => none
        | some (v, r1) =>
          match r1.dropWhile pyIsSpace with
          | [] => none
          | c2 :: r2 =>
            if c2 = ',' then
              (parseListItems fuel r2).map (fun p => (v :: p.1, p.2))
            else if c2 = ']' then some ([v], r2)
            else none

/-- Dict entries after the opening brace or after a comma. -/
def parseDictItems : Nat → List Char → Option (List (PyKey × PyVal) × List Char)
  | 0, _ => none
  | Nat.succ fuel, s =>
    match s.dropWhile pyIsSpace with
    | [] => none
    | c :: rest =>
      if c = rbrace then some ([], rest)
      else
        match parseVal fuel (c :: rest) with
        | none => none
        | some (kv, r1) =>
          match toKey kv with
          | none => none
          | some k =>
            match r1.dropWhile pyIsSpace with
            | [] => none
            | c2 :: r2 =>
              if c2 = ':' then
                match parseVal fuel r2 with
                | none => none
                | some (v, r3) =>
                  match r3.dropWhile pyIsSpace with
                  | [] => none
                  | c3 :: r4 =>
                    if c3 = ',' then
                      (parseDictItems fuel r4).map (fun p => ((k, v) :: p.1, p.2))
                    else if c3 = rbrace then some ([(k, v)], r4)
                    else none
              else none

end

/-- `ast.literal_eval`: parse the whole string as one literal; anything left
over beyond trailing whitespace is a syntax error. -/
def literal_eval (s : List Char) : Option PyVal :=
  match parseVal (2 * s.length + 2) s with
  | some (v, rest) => if (rest.dropWhile pyIsSpace).isEmpty then some v else none
  | none => none

/-! ## Single-Item Processor (`process_single_resume`, src/main.py lines 66-134)

The boolean `llm_client` models the truthiness of the client handle passed in
(`if not llm_client`); the call's base64 encoding of the file bytes only feeds
the outgoing request, so the model call's result is an external input here:
`Except err response_text`, error being the exception text the call raised. -/

def fnKey : List Char := String.toList "FILENAME"

def errKey : List Char := String.toList "ERROR"

def fnKeyK : PyKey := .kstr fnKey

def errKeyK : PyKey := .kstr errKey

def llmFailMsg (filename e : List Char) : List Char :=
  String.toList "LLM API call failed for " ++ filename ++ String.toList ": " ++ e

def noExtractMsg (filename : List Char) : List Char :=
  String.toList "Could not parse LLM response for " ++ filename

def parseFailMsg (filename : List Char) : List Char :=
  String.toList "Could not parse dictionary from LLM response for " ++ filename

/-- The result of one `process_single_resume` call: a returned dict, or an
exception propagating to the caller. -/
inductive ProcResult where
  | record (r : Record)
  | raised (status : Nat) (detail : List Char)

/-- Lines 120-134: `ast.literal_eval` the extracted substring, require a dict
(else `ValueError`, caught alongside literal syntax errors by the same
handler), and inject `FILENAME` into the dict before returning it. -/
def parseRecordStep (dict_string filename : List Char) : Record :=
  match literal_eval dict_string with
  | some (.vdict kvs) => dictSet kvs fnKeyK (.vstr filename)
  | some _ => [(errKeyK, .vstr (parseFailMsg filename))]
  | none => [(errKeyK, .vstr (parseFailMsg filename))]

/-- `process_single_resume`: raises HTTP 500 when the client handle is falsy;
otherwise every failure path returns an error dict.  `file_bytes` and
`requirement_text` only shape the outgoing model request (base64 payload and
prompt), whose outcome is the `llm_call` input. -/
def process_single_resume (file_bytes : List Nat) (filename : List Char)
    (requirement_text : List Char) (llm_client : Bool)
    (llm_call : Except (List Char) (List Char)) : ProcResult :=
  if !llm_client then
    .raised 500 (String.toList "LLM Client is not initialized.")
  else
    match llm_call with
    | .error e => .record [(errKeyK, .vstr (llmFailMsg filename e))]
    | .ok response_text =>
      match extract_python_dict_string response_text with
      | none => .record [(errKeyK, .vstr (noExtractMsg filename))]
      | some dict_string =>
        if dict_string.isEmpty then
          .record [(errKeyK, .vstr (noExtractMsg filename))]
        else
          .record (parseRecordStep dict_string filename)

/-! ## Batch Orchestrator (`process_resumes_endpoint`, src/main.py lines 159-258)

One uploaded file together with its environment: FastAPI's `UploadFile` has an
optional `content_type` and optional `filename`; `readResult` is what
`await file.read()` does (bytes, or the exception it raised), and `llm_call`
is the outcome of this file's model call should one be dispatched. -/

structure UploadFile where
  content_type : Option (List Char)
  filename : Option (List Char)
  readResult : Except (List Char) (List Nat)
  llm_call : Except (List Char) (List Char)

def applicationPdf : List Char := String.toList "application/pdf"

/-- The `FILENAME` cell of the invalid-type record is `file.filename` as-is,
which may be Python `None`. -/
def optVal : Option (List Char) → PyVal
  | none => .vnone
  | some s => .vstr s

def invalidTypeRecord (f : UploadFile) : Record :=
  [(fnKeyK, optVal f.filename),
   (errKeyK, .vstr (String.toList "Invalid file type (must be PDF)"))]

def noFilenameRecord : Record :=
  [(fnKeyK, .vstr (String.toList "N/A")),
   (errKeyK, .vstr (String.toList "File uploaded without a filename"))]

def emptyFileRecord (filename : List Char) : Record :=
  [(fnKeyK, .vstr filename),
   (errKeyK, .vstr (String.toList "Empty file uploaded"))]

def readFailRecord (filename e : List Char) : Record :=
  [(fnKeyK, .vstr filename),
   (errKeyK, .vstr (String.toList "Failed to read file: " ++ e))]

/-- Python truthiness of `file.filename`: `None` and the empty string are
falsy. -/
def falsyName : Option (List Char) → Bool
  | none => true
  | some s => s.isEmpty

/-- What the loop body (lines 172-210) does for one file: the checks run in
source order — content type, then filename, then read / empty content — and
the first failing one appends its ErrorRecord; otherwise a task is created. -/
inductive FileOutcome where
  | rejected (r : Record)
  | task (file_bytes : List Nat) (filename : List Char)
      (llm_call : Except (List Char) (List Char))

def fileStep (f : UploadFile) : FileOutcome :=
  if f.content_type ≠ some applicationPdf then
    .rejected (invalidTypeRecord f)
  else if falsyName f.filename then
    .rejected noFilenameRecord
  else
    let filename := f.filename.getD []
    match f.readResult with
    | .error e => .rejected (readFailRecord filename e)
    | .ok file_bytes =>
      if file_bytes.isEmpty then .rejected (emptyFileRecord filename)
      else .task file_bytes filename f.llm_call

/-- The arguments of one dispatched `process_single_resume` task:
file bytes, filename, and the model call's outcome. -/
abbrev TaskItem := List Nat × List Char × Except (List Char) (List Char)

/-- One iteration of the loop acting on its two accumulators,
`processed_results` and `tasks`, both appended to in file-iteration order. -/
def collectStep (acc : List Record × List TaskItem) (f : UploadFile) :
    List Record × List TaskItem :=
  match fileStep f with
  | .rejected r => (acc.1 ++ [r], acc.2)
  | .task b fn llm => (acc.1, acc.2 ++ [(b, fn, llm)])

/-- The whole validation loop over the uploaded files. -/
def collectFiles (files : List UploadFile) : List Record × List TaskItem :=
  files.foldl collectStep ([], [])

/-- `asyncio.gather(*tasks)`: results in launch order; an exception raised by
any task propagates. -/
def gatherResults : List ProcResult → Except (Nat × List Char) (List Record)
  | [] => .ok []
  | .record r :: rest => (gatherResults rest).map (fun rs => r :: rs)
  | .raised st d :: _ => .error (st, d)

/-! ## Tabular Exporter (lines 224-230)

`pd.DataFrame(list_of_dicts)` makes the column set the union of the records'
keys in encounter order (row by row, key insertion order within a row); the
endpoint then moves the preferred columns that are present to the front. -/

def addKeys (acc : List PyKey) (r : Record) : List PyKey :=
  r.foldl (fun a kv => if kv.1 ∈ a then a else a ++ [kv.1]) acc

def dfColumns (records : List Record) : List PyKey :=
  records.foldl addKeys []

def preferred_order : List PyKey :=
  [.kstr (String.toList "FILENAME"),
   .kstr (String.toList "ERROR"),
   .kstr (String.toList "NAME"),
   .kstr (String.toList "YEARS OF EXPERIENCE"),
   .kstr (String.toList "KEY STRENGTHS"),
   .kstr (String.toList "SUMMARY"),
   .kstr (String.toList "SUITABLE FOR MY REQUIREMENT (Y/N)"),
   .kstr (String.toList "OVERFIT (Y/N)")]

/-- Line 229: preferred columns that occur, in preferred order, then the
remaining columns in their encounter order. -/
def newCols (records : List Record) : List PyKey :=
  preferred_order.filter (fun c => decide (c ∈ dfColumns records))
    ++ (dfColumns records).filter (fun c => decide (c ∉ preferred_order))

/-- The data the streamed spreadsheet holds: one row per record, under the
reordered columns.  (The xlsx byte serialization itself is external to the
record data.) -/
structure TableOut where
  rows : List Record
  cols : List PyKey

/-- `process_resumes_endpoint`: 500 when the global client is `None`; loop
over the files; gather the dispatched tasks (the `res is not None` filter
drops nothing because `process_single_resume` returns a dict on every
non-raising path); 400 when the combined list is empty; else the table.
`client_some` is the truthiness of the module-level client handle, which the
endpoint compares with `None` and the processor re-checks for truthiness. -/
def msg500 : List Char :=
  String.toList "LLM Client is not available or failed to initialize."

def msg400 : List Char :=
  String.toList "No valid resumes processed or processing failed for all files."

def process_resumes_endpoint (client_some : Bool) (files : List UploadFile)
    (requirement_text : List Char) : Except (Nat × List Char) TableOut :=
  if !client_some then
    .error (500, msg500)
  else
    match gatherResults ((collectFiles files).2.map
        (fun t => process_single_resume t.1 t.2.1 requirement_text client_some t.2.2)) with
    | .error e => .error e
    | .ok taskRecords =>
      if ((collectFiles files).1 ++ taskRecords).isEmpty then
        .error (400, msg400)
      else
        .ok ⟨(collectFiles files).1 ++ taskRecords,
             newCols ((collectFiles files).1 ++ taskRecords)⟩

/-! ## Statement-side definitions

Selectors stated independently of the endpoint's single loop, used to compare
the loop's accumulated output against the spec's description of it. -/

/-- The ErrorRecords of the files the validation rejects, in file-iteration
order. -/
def rejectedRecords (files : List UploadFile) : List Record :=
  files.filterMap (fun f =>
    match fileStep f with
    | .rejected r => some r
    | .task _ _ _ => none)

/-- The dispatched (accepted) tasks, in launch order. -/
def acceptedTasks (files : List UploadFile) : List TaskItem :=
  files.filterMap (fun f =>
    match fileStep f with
    | .rejected _ => none
    | .task b fn llm => some (b, fn, llm))

/-- The endpoint's `res is not None` filter, applied to a task's outcome. -/
def recOf : ProcResult → Option Record
  | .record r => some r
  | .raised _ _ => none

/-! ## Concrete inputs used in the closed theorems -/

/-- The substring the spec's examples use: a python dict literal with a NAME
and a SUMMARY entry. -/
def goodDictStr : List Char := String.toList "\x7b'NAME': 'A', 'SUMMARY': 'B'\x7d"

/-- A model response wrapping `goodDictStr` in a python-fenced code block. -/
def fencedResp : List Char :=
  String.toList "Here is the assessment:\n```python\n\x7b'NAME': 'A', 'SUMMARY': 'B'\x7d\n```\nDone."

/-- A response holding a raw dict with both markers before a fenced block:
the fenced regex is tried first over the whole text, so the fenced body wins
even though the raw span starts earlier. -/
def mixedResp : List Char :=
  String.toList "\x7b'NAME': 'x', 'SUMMARY': 'y'\x7d ```python \x7b'K': 2\x7d ```"

/-- Text with no brace-delimited structure at all. -/
def noBraceResp : List Char := String.toList "plain text with no dict"

/-- The spec's malformed example: an unclosed dict literal. -/
def malformedStr : List Char := String.toList "\x7b'NAME': 'A'"

/-- A well-formed literal whose top-level value is not a mapping. -/
def listStr : List Char := String.toList "['A', 'B']"

def bobName : List Char := String.toList "bob.pdf"

def connErr : List Char := String.toList "Connection error."

/-- A response whose parsed dict already carries a FILENAME entry. -/
def injResp : List Char :=
  String.toList "```python \x7b'NAME': 'A', 'FILENAME': 'fake', 'SUMMARY': 'B'\x7d ```"

def injDs : List Char :=
  String.toList "\x7b'NAME': 'A', 'FILENAME': 'fake', 'SUMMARY': 'B'\x7d"

def injKvs : Record :=
  [(.kstr (String.toList "NAME"), .vstr (String.toList "A")),
   (fnKeyK, .vstr (String.toList "fake")),
   (.kstr (String.toList "SUMMARY"), .vstr (String.toList "B"))]

def realName : List Char := String.toList "real.pdf"

/-- An accepted upload: PDF media type, a filename, non-empty content; its
model call fails, which still yields exactly one record. -/
def acceptedFile : UploadFile :=
  ⟨some applicationPdf, some (String.toList "alice.pdf"), .ok [1], .error connErr⟩

/-- A rejected upload: wrong media type (and no filename). -/
def badTypeFile : UploadFile :=
  ⟨some (String.toList "text/plain"), none, .ok [1], .ok []⟩

/-- A PDF upload with a missing filename. -/
def pdfNoName : UploadFile :=
  ⟨some applicationPdf, none, .ok [1], .ok []⟩

/-- A batch where the rejected file comes after the accepted one. -/
def mixedFiles : List UploadFile := [acceptedFile, badTypeFile]

/-- Two records with disjoint extra keys beyond the canonical prefix. -/
def recA : Record :=
  [(fnKeyK, .vstr (String.toList "a.pdf")),
   (.kstr (String.toList "EXTRA1"), .vint 1)]

def recB : Record :=
  [(errKeyK, .vstr (String.toList "oops")),
   (.kstr (String.toList "EXTRA2"), .vint 2)]

/-- The record `acceptedFile`'s failing model call produces. -/
def aliceLLMErrorRecord : Record :=
  [(errKeyK, .vstr (llmFailMsg (String.toList "alice.pdf") connErr))]

/-- The rows the mixed batch yields: the rejected file's record first, though
it was uploaded second. -/
def mixedRows : List Record := [invalidTypeRecord badTypeFile, aliceLLMErrorRecord]

def mixedTable : TableOut := ⟨mixedRows, newCols mixedRows⟩

/-! ## Helper lemmas -/

lemma isPrefixOf_append_self (p s : List Char) : p.isPrefixOf (p ++ s) = true := by
  induction p with
  | nil => cases s <;> rfl
  | cons c cs ih => simp [List.isPrefixOf, ih]

lemma containsSub_append (pat pre suf : List Char) :
    containsSub pat (pre ++ (pat ++ suf)) = true := by
  induction pre with
  | nil =>
    rw [List.nil_append]
    cases hp : pat ++ suf with
    | nil =>
      have hpat : pat = [] := by
        cases pat with
        | nil => rfl
        | cons a as => simp at hp
      rw [hpat]
      decide
    | cons c rest =>
      simp only [containsSub]
      rw [← hp, isPrefixOf_append_self, Bool.true_or]
  | cons c pre ih =>
    rw [List.cons_append]
    simp only [containsSub]
    rw [ih, Bool.or_true]

lemma process_true_record (b : List Nat) (fn req : List Char)
    (llm : Except (List Char) (List Char)) :
    ∃ r, process_single_resume b fn req true llm = ProcResult.record r := by
  cases llm with
  | error e => exact ⟨[(errKeyK, .vstr (llmFailMsg fn e))], rfl⟩
  | ok resp =>
    cases h : extract_python_dict_string resp with
    | none =>
      exact ⟨[(errKeyK, .vstr (noExtractMsg fn))], by simp [process_single_resume, h]⟩
    | some ds =>
      cases ds with
      | nil =>
        exact ⟨[(errKeyK, .vstr (noExtractMsg fn))], by simp [process_single_resume, h]⟩
      | cons d dsr =>
        exact ⟨parseRecordStep (d :: dsr) fn, by simp [process_single_resume, h]⟩

lemma gatherResults_filterMap (ps : List ProcResult)
    (h : ∀ p ∈ ps, ∃ r, p = ProcResult.record r) :
    gatherResults ps = .ok (ps.filterMap recOf)
      ∧ (ps.filterMap recOf).length = ps.length := by
  induction ps with
  | nil => exact ⟨rfl, rfl⟩
  | cons p ps ih =>
    obtain ⟨r, rfl⟩ := h p (List.mem_cons_self p ps)
    obtain ⟨h1, h2⟩ := ih (fun q hq => h q (List.mem_cons_of_mem _ hq))
    constructor
    · show (gatherResults ps).map (fun rs => r :: rs) = _
      rw [h1]
      rfl
    · show (List.filterMap recOf (ProcResult.record r :: ps)).length = _
      rw [List.filterMap_cons]
      simp [recOf, h2]

lemma collectStep_rejected (a : List Record) (b : List TaskItem) (f : UploadFile)
    (r : Record) (hf : fileStep f = .rejected r) :
    collectStep (a, b) f = (a ++ [r], b) := by
  simp [collectStep, hf]

lemma collectStep_task (a : List Record) (b : List TaskItem) (f : UploadFile)
    (bb : List Nat) (fn : List Char) (llm : Except (List Char) (List Char))
    (hf : fileStep f = .task bb fn llm) :
    collectStep (a, b) f = (a, b ++ [(bb, fn, llm)]) := by
  simp [collectStep, hf]

lemma collectFiles_go (files : List UploadFile) :
    ∀ (a : List Record) (b : List TaskItem),
      files.foldl collectStep (a, b)
      = (a ++ rejectedRecords files, b ++ acceptedTasks files) := by
  induction files with
  | nil => intro a b; simp [rejectedRecords, acceptedTasks]
  | cons f fs ih =>
    intro a b
    rw [List.foldl_cons]
    cases hf : fileStep f with
    | rejected r =>
      rw [collectStep_rejected a b f r hf, ih]
      simp [rejectedRecords, acceptedTasks, List.filterMap_cons, hf]
    | task bb fn llm =>
      rw [collectStep_task a b f bb fn llm hf, ih]
      simp [rejectedRecords, acceptedTasks, List.filterMap_cons, hf]

lemma collectFiles_eq (files : List UploadFile) :
    collectFiles files = (rejectedRecords files, acceptedTasks files) := by
  have := collectFiles_go files [] []
  simpa [collectFiles] using this

lemma rejected_accepted_length (files : List UploadFile) :
    (rejectedRecords files).length + (acceptedTasks files).length = files.length := by
  induction files with
  | nil => rfl
  | cons f fs ih =>
    simp only [rejectedRecords, acceptedTasks, List.filterMap_cons] at *
    cases hf : fileStep f <;> simp [hf] <;> omega

/-- With a truthy client every dispatched task yields a record, so the
endpoint returns the table whose rows are the rejection records followed by
the task records in launch order. -/
lemma endpoint_ok_spec (files : List UploadFile) (req : List Char) (h : files ≠ []) :
    ∃ t : TableOut,
      process_resumes_endpoint true files req = .ok t
      ∧ t.rows = rejectedRecords files
          ++ (acceptedTasks files).filterMap
              (fun tk => recOf (process_single_resume tk.1 tk.2.1 req true tk.2.2))
      ∧ t.rows.length = files.length
      ∧ t.cols = newCols t.rows := by
  have hps : ∀ p ∈ (acceptedTasks files).map
      (fun tk => process_single_resume tk.1 tk.2.1 req true tk.2.2),
      ∃ r, p = ProcResult.record r := by
    intro p hp
    obtain ⟨tk, _, rfl⟩ := List.mem_map.mp hp
    exact process_true_record _ _ _ _
  obtain ⟨hg, hlen⟩ := gatherResults_filterMap _ hps
  have hfm : ((acceptedTasks files).map
        (fun tk => process_single_resume tk.1 tk.2.1 req true tk.2.2)).filterMap recOf
      = (acceptedTasks files).filterMap
          (fun tk => recOf (process_single_resume tk.1 tk.2.1 req true tk.2.2)) := by
    rw [List.filterMap_map]
    rfl
  have hrows_len :
      (rejectedRecords files
        ++ (acceptedTasks files).filterMap
            (fun tk => recOf (process_single_resume tk.1 tk.2.1 req true tk.2.2))).length
      = files.length := by
    rw [List.length_append, ← hfm, hlen, List.length_map]
    exact rejected_accepted_length files
  have hne : (rejectedRecords files
      ++ (acceptedTasks files).filterMap
          (fun tk => recOf (process_single_resume tk.1 tk.2.1 req true tk.2.2))).isEmpty
      = false := by
    cases hcase : rejectedRecords files
        ++ (acceptedTasks files).filterMap
            (fun tk => recOf (process_single_resume tk.1 tk.2.1 req true tk.2.2)) with
    | nil =>
      rw [hcase] at hrows_len
      exact absurd (List.length_eq_zero.mp hrows_len.symm) h
    | cons x xs => rfl
  refine ⟨⟨rejectedRecords files
      ++ (acceptedTasks files).filterMap
          (fun tk => recOf (process_single_resume tk.1 tk.2.1 req true tk.2.2)),
      newCols (rejectedRecords files
        ++ (acceptedTasks files).filterMap
            (fun tk => recOf (process_single_resume tk.1 tk.2.1 req true tk.2.2)))⟩,
    ?_, rfl, hrows_len, rfl⟩
  unfold process_resumes_endpoint
  simp only [collectFiles_eq, Bool.not_true, Bool.false_eq_true, if_false, hg, hfm, hne]

lemma dictGet_overwrite_self (kvs : Record) (k : PyKey) (v : PyVal)
    (h : kvs.any (fun kv => kv.1 = k) = true) :
    dictGet (kvs.map (fun kv => if kv.1 = k then (k, v) else kv)) k = some v := by
  induction kvs with
  | nil => simp at h
  | cons kv rest ih =>
    by_cases hk : kv.1 = k
    · simp [dictGet, List.find?_cons, hk]
    · have hrest : rest.any (fun kv => kv.1 = k) = true := by
        simp only [List.any_cons] at h
        rcases Bool.or_eq_true_iff.mp h with h1 | h1
        · exact absurd (of_decide_eq_true h1) hk
        · exact h1
      simp only [List.map_cons, if_neg hk]
      rw [dictGet, List.find?_cons]
      simp only [decide_eq_true_eq, hk, decide_False]
      exact ih hrest

lemma dictGet_overwrite_other (kvs : Record) (k k' : PyKey) (v : PyVal)
    (h : k' ≠ k) :
    dictGet (kvs.map (fun kv => if kv.1 = k then (k, v) else kv)) k'
      = dictGet kvs k' := by
  induction kvs with
  | nil => rfl
  | cons kv rest ih =>
    by_cases hk : kv.1 = k
    · have hne : ¬ (k = k') := fun e => h e.symm
      rw [List.map_cons, if_pos hk]
      rw [dictGet, dictGet, List.find?_cons, List.find?_cons]
      have h1 : (decide ((k, v).1 = k')) = false := by simp [hne]
      have h2 : (decide (kv.1 = k')) = false := by
        rw [hk]
        simp [hne]
      rw [h1, h2]
      exact ih
    · rw [List.map_cons, if_neg hk]
      rw [dictGet, dictGet, List.find?_cons, List.find?_cons]
      by_cases hk' : kv.1 = k'
      · simp [hk']
      · simp only [decide_eq_true_eq, hk', decide_False]
        exact ih

lemma dictSet_present (kvs : Record) (k : PyKey) (v : PyVal)
    (h : kvs.any (fun kv => kv.1 = k) = true) :
    dictSet kvs k v = kvs.map (fun kv => if kv.1 = k then (k, v) else kv) := by
  rw [dictSet, if_pos h]

/-! Brace-free inputs make both regex searches fail. -/

lemma firstBraceSpan_none (s : List Char) (h : lbrace ∉ s) :
    firstBraceSpan s = none := by
  induction s with
  | nil => rfl
  | cons c cs ih =>
    have hc : ¬ (c = lbrace) := fun e => h (e ▸ List.mem_cons_self c cs)
    rw [firstBraceSpan, if_neg hc]
    exact ih (fun m => h (List.mem_cons_of_mem _ m))

lemma fencedAt_none (s : List Char) (h : lbrace ∉ s) : fencedAt s = none := by
  rw [fencedAt]
  split
  · rename_i hpre
    cases hm : (s.drop fenceOpen.length).dropWhile pyIsSpace with
    | nil => rfl
    | cons c cs =>
      have hc : c ∈ s := by
        have h1 : c ∈ (s.drop fenceOpen.length).dropWhile pyIsSpace := by
          rw [hm]; exact List.mem_cons_self _ _
        have h2 : c ∈ s.drop fenceOpen.length :=
          (List.dropWhile_sublist (l := s.drop fenceOpen.length) (p := pyIsSpace)).subset h1
        exact (List.drop_sublist fenceOpen.length s).subset h2
      show (if c = lbrace then Option.map (fun b => lbrace :: b) (scanFencedBody cs) else none)
        = none
      rw [if_neg (fun e : c = lbrace => h (e ▸ hc))]
  · rfl

lemma searchFenced_none (s : List Char) (h : lbrace ∉ s) : searchFenced s = none := by
  induction s with
  | nil => rfl
  | cons c cs ih =>
    rw [searchFenced, fencedAt_none _ h]
    exact ih (fun m => h (List.mem_cons_of_mem _ m))

/-! Column-union membership. -/

lemma mem_addKeys (r : Record) (a : List PyKey) (c : PyKey) :
    c ∈ addKeys a r ↔ c ∈ a ∨ ∃ kv ∈ r, kv.1 = c := by
  induction r generalizing a with
  | nil => simp [addKeys]
  | cons kv rest ih =>
    have step : addKeys a (kv :: rest)
        = addKeys (if kv.1 ∈ a then a else a ++ [kv.1]) rest := by
      simp [addKeys, List.foldl_cons]
    rw [step, ih]
    by_cases hmem : kv.1 ∈ a
    · rw [if_pos hmem]
      constructor
      · rintro (hc | hc)
        · exact Or.inl hc
        · exact Or.inr ⟨_, List.mem_cons_of_mem _ hc.choose_spec.1, hc.choose_spec.2⟩
      · rintro (hc | ⟨kv2, hkv2, hc⟩)
        · exact Or.inl hc
        · rcases List.mem_cons.mp hkv2 with rfl | h2
          · exact Or.inl (hc ▸ hmem)
          · exact Or.inr ⟨kv2, h2, hc⟩
    · rw [if_neg hmem]
      constructor
      · rintro (hc | hc)
        · rcases List.mem_append.mp hc with h1 | h1
          · exact Or.inl h1
          · refine Or.inr ⟨kv, List.mem_cons_self _ _, ?_⟩
            simpa using (List.mem_singleton.mp h1).symm
        · exact Or.inr ⟨_, List.mem_cons_of_mem _ hc.choose_spec.1, hc.choose_spec.2⟩
      · rintro (hc | ⟨kv2, hkv2, hc⟩)
        · exact Or.inl (List.mem_append.mpr (Or.inl hc))
        · rcases List.mem_cons.mp hkv2 with rfl | h2
          · exact Or.inl (List.mem_append.mpr (Or.inr (by simp [hc])))
          · exact Or.inr ⟨kv2, h2, hc⟩

lemma mem_dfColumns_go (records : List Record) (a : List PyKey) (c : PyKey) :
    c ∈ records.foldl addKeys a ↔ c ∈ a ∨ ∃ r ∈ records, ∃ kv ∈ r, kv.1 = c := by
  induction records generalizing a with
  | nil => simp
  | cons r rs ih =>
    rw [List.foldl_cons, ih]
    rw [mem_addKeys]
    constructor
    · rintro ((hc | hc) | hc)
      · exact Or.inl hc
      · exact Or.inr ⟨r, List.mem_cons_self _ _, hc⟩
      · obtain ⟨r2, hr2, hkv⟩ := hc
        exact Or.inr ⟨r2, List.mem_cons_of_mem _ hr2, hkv⟩
    · rintro (hc | ⟨r2, hr2, hkv⟩)
      · exact Or.inl (Or.inl hc)
      · rcases List.mem_cons.mp hr2 with rfl | h2
        · exact Or.inl (Or.inr hkv)
        · exact Or.inr ⟨r2, h2, hkv⟩

lemma mem_dfColumns (records : List Record) (c : PyKey) :
    c ∈ dfColumns records ↔ ∃ r ∈ records, ∃ kv ∈ r, kv.1 = c := by
  rw [dfColumns, mem_dfColumns_go]
  simp

lemma dfColumns_mem_any (records : List Record) (c : PyKey) :
    decide (c ∈ dfColumns records)
      = records.any (fun r => r.any (fun kv => kv.1 = c)) := by
  by_cases hc : c ∈ dfColumns records
  · rw [decide_eq_true hc]
    symm
    rw [List.any_eq_true]
    obtain ⟨r, hr, kv, hkv, he⟩ := (mem_dfColumns records c).mp hc
    exact ⟨r, hr, List.any_eq_true.mpr ⟨kv, hkv, decide_eq_true he⟩⟩
  · rw [decide_eq_false hc]
    symm
    rw [← Bool.not_eq_true, List.any_eq_true]
    rintro ⟨r, hr, hany⟩
    obtain ⟨kv, hkv, he⟩ := List.any_eq_true.mp hany
    exact hc ((mem_dfColumns records c).mpr ⟨r, hr, kv, hkv, of_decide_eq_true he⟩)

/-! ## Claim theorems -/

/-- C1: every uploaded file — rejected by validation, failing at a processing
stage, or succeeding — contributes exactly one record to the output list,
never zero and never more than one, so a batch of N files yields a table with
exactly N rows. -/
theorem one_record_per_file (files : List UploadFile) (requirement_text : List Char)
    (h : files ≠ []) :
    ∃ t : TableOut, process_resumes_endpoint true files requirement_text = .ok t
      ∧ t.rows.length = files.length := by
  obtain ⟨t, h1, _, h3, _⟩ := endpoint_ok_spec files requirement_text h
  exact ⟨t, h1, h3⟩

/-- C1 witness: a three-file batch — one accepted whose model call fails, one
with a wrong media type, one PDF without a filename — yields exactly three
rows. -/
theorem one_record_per_file_witness :
    ∃ t : TableOut,
      process_resumes_endpoint true [acceptedFile, badTypeFile, pdfNoName] [] = .ok t
      ∧ t.rows.length = [acceptedFile, badTypeFile, pdfNoName].length :=
  one_record_per_file [acceptedFile, badTypeFile, pdfNoName] [] (List.cons_ne_nil _ _)

/-- C2 counterexample: with an absent (falsy) client handle the Single-Item
Processor raises HTTP 500 instead of returning a record, so it does not hold
for every input that no exception propagates. -/
theorem single_item_raises_on_absent_client :
    process_single_resume [] (String.toList "a.pdf") [] false (.ok [])
      = ProcResult.raised 500 (String.toList "LLM Client is not initialized.") := rfl

/-- C2 (amended): with a truthy client handle the Single-Item Processor never
raises — every model-call outcome, throwing included, yields a ResumeRecord or
ErrorRecord — while a falsy (uninitialized) client handle raises HTTP 500. -/
theorem single_item_never_raises :
    (∀ (b : List Nat) (fn req : List Char) (llm : Except (List Char) (List Char)),
        ∃ r, process_single_resume b fn req true llm = ProcResult.record r)
    ∧ ∀ (b : List Nat) (fn req : List Char) (llm : Except (List Char) (List Char)),
        process_single_resume b fn req false llm
          = ProcResult.raised 500 (String.toList "LLM Client is not initialized.") :=
  ⟨fun b fn req llm => process_true_record b fn req llm, fun _ _ _ _ => rfl⟩

/-- C3 counterexample: for "bob.pdf" whose model call throws a connection
error, the returned ErrorRecord has ERROR populated but carries no FILENAME
key at all. -/
theorem llm_error_record_lacks_filename :
    process_single_resume [] bobName [] true (.error connErr)
      = ProcResult.record [(errKeyK, .vstr (llmFailMsg bobName connErr))]
    ∧ dictGet [(errKeyK, PyVal.vstr (llmFailMsg bobName connErr))] fnKeyK = none :=
  ⟨rfl, rfl⟩

/-- C3 (amended): validation-stage ErrorRecords carry a FILENAME key, but the
ErrorRecords produced inside the Single-Item Processor carry only ERROR, with
the filename embedded in the message text instead of under a FILENAME key. -/
theorem processor_error_records (b : List Nat) (fn req e : List Char) (f : UploadFile) :
    process_single_resume b fn req true (.error e)
      = ProcResult.record [(errKeyK, .vstr (llmFailMsg fn e))]
    ∧ dictGet [(errKeyK, PyVal.vstr (llmFailMsg fn e))] fnKeyK = none
    ∧ containsSub fn (llmFailMsg fn e) = true
    ∧ dictGet (invalidTypeRecord f) fnKeyK = some (optVal f.filename)
    ∧ dictGet (emptyFileRecord fn) fnKeyK = some (.vstr fn) := by
  refine ⟨rfl, rfl, ?_, rfl, rfl⟩
  have h := containsSub_append fn (String.toList "LLM API call failed for ")
    (String.toList ": " ++ e)
  simpa [llmFailMsg] using h

/-- C4 counterexample: a batch whose only file fails validation still returns
a table with that file's ErrorRecord as its one row — not an HTTP 400. -/
theorem all_rejected_still_table :
    process_resumes_endpoint true [badTypeFile] []
      = .ok ⟨[invalidTypeRecord badTypeFile], newCols [invalidTypeRecord badTypeFile]⟩
    ∧ ∀ d, process_resumes_endpoint true [badTypeFile] [] ≠ .error (400, d) := by
  refine ⟨rfl, ?_⟩
  intro d hd
  rw [show process_resumes_endpoint true [badTypeFile] []
      = Except.ok (⟨[invalidTypeRecord badTypeFile],
          newCols [invalidTypeRecord badTypeFile]⟩ : TableOut) from rfl] at hd
  exact Except.noConfusion hd

/-- C4 (amended): the batch-level HTTP 400 fires exactly when zero files are
submitted; with at least one file — even if every file fails validation — the
rejection ErrorRecords make the list non-empty and a table is returned. -/
theorem empty_batch_400_iff (files : List UploadFile) (req : List Char) :
    process_resumes_endpoint true files req = .error (400, msg400) ↔ files = [] := by
  constructor
  · intro h
    by_contra hne
    obtain ⟨t, h1, _, _, _⟩ := endpoint_ok_spec files req hne
    rw [h1] at h
    exact Except.noConfusion h
  · rintro rfl
    rfl

/-- C5: the Extraction Parser tries the fenced pattern first (winning even
when a marker-bearing raw span starts earlier in the text), then the first
brace-delimited span guarded by the NAME and SUMMARY markers, and otherwise —
in particular on any text without a left brace — signals not-found. -/
theorem extractor_first_match :
    extract_python_dict_string fencedResp = some goodDictStr
    ∧ extract_python_dict_string mixedResp = some (String.toList "\x7b'K': 2\x7d")
    ∧ (∀ s : List Char, lbrace ∉ s → extract_python_dict_string s = none)
    ∧ (∀ s d : List Char, searchFenced s = none → firstBraceSpan s = some d →
        extract_python_dict_string s
          = if containsSub nameMarker (pyStrip d) && containsSub summaryMarker (pyStrip d)
            then some (pyStrip d) else none) := by
  refine ⟨rfl, rfl, ?_, ?_⟩
  · intro s hs
    rw [extract_python_dict_string, searchFenced_none s hs, firstBraceSpan_none s hs]
  · intro s d h1 h2
    rw [extract_python_dict_string, h1, h2]

/-- C5 witness: text with no brace-delimited structure yields not-found. -/
theorem extractor_first_match_witness :
    extract_python_dict_string noBraceResp = none :=
  extractor_first_match.2.2.1 noBraceResp (by decide)

/-- C6: the Record Parser evaluates the candidate substring as a literal
mapping only — a well-formed mapping yields the parsed record with FILENAME
injected, while malformed input or a non-mapping top-level value yields the
parse-failure ErrorRecord — and every input produces one of these two records,
so no parse exception escapes. -/
theorem record_parse_literal (fn : List Char) :
    parseRecordStep goodDictStr fn
      = [(.kstr (String.toList "NAME"), .vstr (String.toList "A")),
         (.kstr (String.toList "SUMMARY"), .vstr (String.toList "B")),
         (fnKeyK, .vstr fn)]
    ∧ parseRecordStep malformedStr fn = [(errKeyK, .vstr (parseFailMsg fn))]
    ∧ parseRecordStep listStr fn = [(errKeyK, .vstr (parseFailMsg fn))]
    ∧ (∀ ds : List Char,
        (∃ kvs, literal_eval ds = some (.vdict kvs)
          ∧ parseRecordStep ds fn = dictSet kvs fnKeyK (.vstr fn))
        ∨ parseRecordStep ds fn = [(errKeyK, .vstr (parseFailMsg fn))]) := by
  refine ⟨rfl, rfl, rfl, ?_⟩
  intro ds
  cases h : literal_eval ds with
  | none => exact Or.inr (by rw [parseRecordStep, h])
  | some v =>
    cases v with
    | vdict kvs => exact Or.inl ⟨kvs, rfl, by rw [parseRecordStep, h]⟩
    | vstr s => exact Or.inr (by rw [parseRecordStep, h])
    | vint n => exact Or.inr (by rw [parseRecordStep, h])
    | vbool b2 => exact Or.inr (by rw [parseRecordStep, h])
    | vnone => exact Or.inr (by rw [parseRecordStep, h])
    | vlist xs => exact Or.inr (by rw [parseRecordStep, h])

/-- C7: the final output list equals the validation-rejected files'
ErrorRecords in file-iteration order followed by the dispatched tasks'
results in launch order, so every rejected-file record precedes every
processed-file record even when the rejected file was uploaded later. -/
theorem batch_output_order (files : List UploadFile) (req : List Char) (t : TableOut)
    (h : process_resumes_endpoint true files req = .ok t) :
    t.rows = rejectedRecords files
      ++ (acceptedTasks files).filterMap
          (fun tk => recOf (process_single_resume tk.1 tk.2.1 req true tk.2.2)) := by
  cases files with
  | nil =>
    rw [show process_resumes_endpoint true [] req = .error (400, msg400) from rfl] at h
    exact Except.noConfusion h
  | cons f fs =>
    obtain ⟨t2, h1, h2, _, _⟩ := endpoint_ok_spec (f :: fs) req (List.cons_ne_nil f fs)
    rw [h1] at h
    have ht : t2 = t := by injection h
    rw [← ht]
    exact h2

/-- C7 witness: in the mixed batch the rejected file was uploaded second, yet
its ErrorRecord is the first row, before the accepted file's result. -/
theorem batch_output_order_witness :
    mixedTable.rows = rejectedRecords mixedFiles
      ++ (acceptedTasks mixedFiles).filterMap
          (fun tk => recOf (process_single_resume tk.1 tk.2.1 [] true tk.2.2)) :=
  batch_output_order mixedFiles [] mixedTable rfl

/-- C8: for a non-empty record list the exported column list is the canonical
prefix columns that occur in some record, in the fixed preferred order,
followed by the remaining union keys in encounter order. -/
theorem export_column_order (records : List Record) (h : records ≠ []) :
    newCols records
      = preferred_order.filter
          (fun c => records.any (fun r => r.any (fun kv => kv.1 = c)))
        ++ (dfColumns records).filter (fun c => decide (c ∉ preferred_order)) := by
  rw [newCols]
  congr 1
  apply List.filter_congr
  intro c _
  exact dfColumns_mem_any records c

/-- C8 witness: two records with disjoint extra keys beyond the canonical
prefix. -/
theorem export_column_order_witness :
    newCols [recA, recB]
      = preferred_order.filter
          (fun c => [recA, recB].any (fun r => r.any (fun kv => kv.1 = c)))
        ++ (dfColumns [recA, recB]).filter (fun c => decide (c ∉ preferred_order)) :=
  export_column_order [recA, recB] (List.cons_ne_nil recA [recB])

/-- C9: when the parsed mapping already contains a FILENAME key, the injection
overwrites it in place with the uploaded filename, and every other key/value
pair of the parsed mapping is returned unchanged. -/
theorem filename_injection_overwrites (b : List Nat) (fn req resp ds : List Char)
    (kvs : Record)
    (h1 : extract_python_dict_string resp = some ds)
    (h2 : literal_eval ds = some (.vdict kvs))
    (h3 : kvs.any (fun kv => kv.1 = fnKeyK) = true) :
    process_single_resume b fn req true (.ok resp)
      = ProcResult.record
          (kvs.map (fun kv => if kv.1 = fnKeyK then (fnKeyK, .vstr fn) else kv))
    ∧ dictGet (kvs.map (fun kv => if kv.1 = fnKeyK then (fnKeyK, .vstr fn) else kv)) fnKeyK
        = some (.vstr fn)
    ∧ ∀ k, k ≠ fnKeyK →
        dictGet (kvs.map (fun kv => if kv.1 = fnKeyK then (fnKeyK, .vstr fn) else kv)) k
          = dictGet kvs k := by
  have hds : ds.isEmpty = false := by
    cases ds with
    | nil =>
      rw [show literal_eval [] = none from rfl] at h2
      exact Option.noConfusion h2
    | cons a as => rfl
  refine ⟨?_, dictGet_overwrite_self kvs fnKeyK (.vstr fn) h3,
    fun k hk => dictGet_overwrite_other kvs fnKeyK k (.vstr fn) hk⟩
  have hu : process_single_resume b fn req true (.ok resp)
      = (match extract_python_dict_string resp with
         | none => ProcResult.record [(errKeyK, .vstr (noExtractMsg fn))]
         | some dict_string =>
           if dict_string.isEmpty then
             ProcResult.record [(errKeyK, .vstr (noExtractMsg fn))]
           else ProcResult.record (parseRecordStep dict_string fn)) := rfl
  rw [hu, h1]
  simp only [hds, Bool.false_eq_true, if_false]
  rw [parseRecordStep, h2]
  show ProcResult.record (dictSet kvs fnKeyK (.vstr fn)) = _
  rw [dictSet_present kvs fnKeyK (.vstr fn) h3]

/-- C9 witness: a fenced response whose dict carries FILENAME 'fake' ends with
FILENAME overwritten by the uploaded name. -/
theorem filename_injection_overwrites_witness :
    dictGet (injKvs.map (fun kv => if kv.1 = fnKeyK then (fnKeyK, PyVal.vstr realName) else kv))
        fnKeyK = some (PyVal.vstr realName) :=
  (filename_injection_overwrites [] realName [] injResp injDs injKvs rfl rfl rfl).2.1

/-- C10: the validation checks run media-type first, then filename, then
empty content, the first failing check deciding the ErrorRecord — a non-PDF
file with a missing filename gets the invalid-type record carrying its missing
filename, and a PDF with a missing filename gets the no-filename record with
FILENAME set to "N/A". -/
theorem validation_check_order :
    (∀ f : UploadFile, f.content_type ≠ some applicationPdf →
        fileStep f = .rejected (invalidTypeRecord f))
    ∧ (∀ f : UploadFile, f.content_type = some applicationPdf →
        falsyName f.filename = true → fileStep f = .rejected noFilenameRecord)
    ∧ (∀ f : UploadFile, f.content_type = some applicationPdf →
        falsyName f.filename = false → f.readResult = .ok [] →
        fileStep f = .rejected (emptyFileRecord (f.filename.getD []))) := by
  refine ⟨?_, ?_, ?_⟩
  · intro f hf
    rw [fileStep, if_pos hf]
  · intro f h1 h2
    rw [fileStep, if_neg (fun hc => hc h1), if_pos h2]
  · intro f h1 h2 h3
    rw [fileStep, if_neg (fun hc => hc h1), if_neg (by rw [h2]; exact Bool.false_ne_true),
      h3]
    rfl

/-- C10 witness: the wrong-type file with a missing filename is rejected for
its media type (its FILENAME cell holding the missing name), while the PDF
with a missing filename is rejected for the filename with "N/A". -/
theorem validation_check_order_witness :
    fileStep badTypeFile = .rejected (invalidTypeRecord badTypeFile)
    ∧ fileStep pdfNoName = .rejected noFilenameRecord :=
  ⟨validation_check_order.1 badTypeFile (by decide),
   validation_check_order.2.1 pdfNoName rfl rfl⟩

end ResumeSelector
